import Mathlib

/-!
Shallow embedding of the core of `mictoggler.py` (classes `StepDistribution`
and `MicToggler`) and proofs about it.

Modelling conventions:
* Python strings are `List Char`; `str.strip`, `str.split` and `in` are
  re-implemented faithfully on lists.
* Python floats are idealized as exact rationals `ℚ`; the textual rendering
  `str(x)` of a numeric value is modelled by an exact, injective decimal
  rendering `ratToString` (numerator `/` denominator), and `float(s)` /
  `exec`-evaluation of a numeric literal by its inverse `parseRat`.
* Exceptions become `Except PyError`.
* The random draws of `random.gauss` are passed in as an explicit stream
  `ℕ → ℚ`, and `random.shuffle` as an explicit permutation function.
-/

namespace MicT

/-- Python strings, modelled as lists of characters. -/
abbrev PyStr := List Char

/-- The whitespace characters removed by Python's `str.strip()`. -/
def isPySpace (c : Char) : Bool :=
  c.toNat = 32 || c.toNat = 9 || c.toNat = 10 || c.toNat = 13 || c.toNat = 11 || c.toNat = 12

/-- Python `line.strip()`: remove whitespace from both ends. -/
def pyStrip (l : PyStr) : PyStr :=
  ((l.dropWhile isPySpace).reverse.dropWhile isPySpace).reverse

/-- Python `s.split(sep)` for a one-character separator. -/
def pySplit (sep : Char) : PyStr → List PyStr
  | [] => [[]]
  | c :: cs =>
    if c = sep then [] :: pySplit sep cs
    else
      match pySplit sep cs with
      | [] => [[c]]
      | p :: ps => (c :: p) :: ps

/-- Python `c in s` for a character `c`. -/
def pyIn (c : Char) : PyStr → Bool
  | [] => false
  | x :: xs => x = c || pyIn c xs

/-- View a Lean string literal as a Python string. -/
def strOf (s : String) : PyStr := s.data

/-- The decimal digit character for `d < 10`. -/
def digitChar (d : ℕ) : Char := Char.ofNat (48 + d)

/-- Numeric value of a decimal digit character. -/
def charVal (c : Char) : ℕ := c.toNat - 48

/-- Whether `c` is one of `'0'..'9'`. -/
def isDigitChar (c : Char) : Bool := 48 ≤ c.toNat && c.toNat ≤ 57

/-- Little-endian decimal digits of `n`; fuel-based so the kernel can
evaluate it (any `fuel ≥ n` gives the digits of `n`). -/
def natDigitsRevAux : ℕ → ℕ → List Char
  | 0, _ => []
  | fuel + 1, n => if n = 0 then [] else digitChar (n % 10) :: natDigitsRevAux fuel (n / 10)

/-- Little-endian decimal digits of `n`. -/
def natDigitsRev (n : ℕ) : List Char := natDigitsRevAux n n

/-- Decimal rendering of a natural number. -/
def natChars (n : ℕ) : PyStr := if n = 0 then ['0'] else (natDigitsRev n).reverse

/-- Decimal rendering of an integer. -/
def intChars (i : ℤ) : PyStr := if i < 0 then '-' :: natChars i.natAbs else natChars i.natAbs

/-- Exact rendering of a rational numeric value, modelling `str(x)` for the
idealized (exact-rational) floats: numerator, `'/'`, denominator. -/
def ratToString (q : ℚ) : PyStr := intChars q.num ++ '/' :: natChars q.den

/-- Value of a little-endian digit-character list. -/
def valRevChars (l : List Char) : ℕ := l.foldr (fun c a => charVal c + 10 * a) 0

/-- Parse a nonempty all-digit string as a natural number. -/
def parseNat (l : PyStr) : Option ℕ :=
  if l = [] then none
  else if l.all isDigitChar then some (valRevChars l.reverse) else none

/-- Parse an optionally `'-'`-signed decimal integer. -/
def parseInt (l : PyStr) : Option ℤ :=
  match l with
  | [] => none
  | c :: rest =>
    if c = '-' then
      match parseNat rest with
      | some n => some (-(n : ℤ))
      | none => none
    else
      match parseNat (c :: rest) with
      | some n => some ((n : ℤ))
      | none => none

/-- Parse the rendering produced by `ratToString`, modelling `float(s)` /
numeric-literal evaluation for the idealized floats.  (`mkRat n d = n / d`;
the `mkRat` form keeps the definition kernel-evaluable.) -/
def parseRat (l : PyStr) : Option ℚ :=
  match pySplit '/' l with
  | [ns, ds] =>
    match parseInt ns, parseNat ds with
    | some n, some d => if d = 0 then none else some (mkRat n d)
    | _, _ => none
  | _ => none

/-! ### Lemmas about the character-level helpers -/

theorem char_ne_of_toNat_ne {c d : Char} (h : c.toNat ≠ d.toNat) : c ≠ d :=
  fun he => h (congrArg Char.toNat he)

theorem digitChar_toNat {d : ℕ} (h : d < 10) : (digitChar d).toNat = 48 + d := by
  interval_cases d <;> decide

theorem charVal_digitChar {d : ℕ} (h : d < 10) : charVal (digitChar d) = d := by
  simp [charVal, digitChar_toNat h]

theorem isDigitChar_iff (c : Char) : isDigitChar c = true ↔ 48 ≤ c.toNat ∧ c.toNat ≤ 57 := by
  simp [isDigitChar]

theorem isDigitChar_digitChar {d : ℕ} (h : d < 10) : isDigitChar (digitChar d) = true := by
  rw [isDigitChar_iff, digitChar_toNat h]
  omega

theorem valRevChars_nil : valRevChars [] = 0 := rfl

theorem valRevChars_cons (c : Char) (l : List Char) :
    valRevChars (c :: l) = charVal c + 10 * valRevChars l := rfl

theorem valRevChars_natDigitsRevAux :
    ∀ (fuel n : ℕ), n ≤ fuel → valRevChars (natDigitsRevAux fuel n) = n := by
  intro fuel
  induction fuel with
  | zero =>
    intro n hn
    have h0 : n = 0 := Nat.le_zero.mp hn
    subst h0
    rfl
  | succ fuel ih =>
    intro n hn
    by_cases h0 : n = 0
    · simp [natDigitsRevAux, h0, valRevChars_nil]
    · have hmod : n % 10 < 10 := Nat.mod_lt _ (by norm_num)
      have hdiv : n / 10 ≤ fuel := by
        have : n / 10 < n := Nat.div_lt_self (Nat.pos_of_ne_zero h0) (by norm_num)
        omega
      simp only [natDigitsRevAux, h0, if_false, valRevChars_cons, ih _ hdiv,
        charVal_digitChar hmod]
      exact Nat.mod_add_div n 10

theorem mem_natDigitsRevAux :
    ∀ (fuel n : ℕ) (c : Char), c ∈ natDigitsRevAux fuel n → isDigitChar c = true := by
  intro fuel
  induction fuel with
  | zero => intro n c hc; simp [natDigitsRevAux] at hc
  | succ fuel ih =>
    intro n c hc
    by_cases h0 : n = 0
    · simp [natDigitsRevAux, h0] at hc
    · simp only [natDigitsRevAux, h0, if_false, List.mem_cons] at hc
      rcases hc with hc | hc
      · subst hc; exact isDigitChar_digitChar (Nat.mod_lt _ (by norm_num))
      · exact ih _ _ hc

theorem natDigitsRev_ne_nil {n : ℕ} (h : n ≠ 0) : natDigitsRev n ≠ [] := by
  cases n with
  | zero => exact absurd rfl h
  | succ m => simp [natDigitsRev, natDigitsRevAux]

theorem natChars_mem {n : ℕ} {c : Char} (h : c ∈ natChars n) :
    48 ≤ c.toNat ∧ c.toNat ≤ 57 := by
  by_cases h0 : n = 0
  · subst h0
    simp [natChars] at h
    subst h; decide
  · simp only [natChars, h0, if_false, List.mem_reverse] at h
    exact (isDigitChar_iff c).mp (mem_natDigitsRevAux _ _ _ h)

theorem intChars_mem {i : ℤ} {c : Char} (h : c ∈ intChars i) :
    c.toNat = 45 ∨ (48 ≤ c.toNat ∧ c.toNat ≤ 57) := by
  by_cases hi : i < 0
  · simp only [intChars, if_pos hi, List.mem_cons] at h
    rcases h with h | h
    · subst h; left; decide
    · exact Or.inr (natChars_mem h)
  · simp only [intChars, if_neg hi] at h
    exact Or.inr (natChars_mem h)

theorem ratToString_mem {q : ℚ} {c : Char} (h : c ∈ ratToString q) :
    c.toNat = 45 ∨ c.toNat = 47 ∨ (48 ≤ c.toNat ∧ c.toNat ≤ 57) := by
  simp only [ratToString, List.mem_append, List.mem_cons] at h
  rcases h with h | h | h
  · rcases intChars_mem h with h | h
    · exact Or.inl h
    · exact Or.inr (Or.inr h)
  · subst h; right; left; decide
  · exact Or.inr (Or.inr (natChars_mem h))

theorem parseNat_natChars (n : ℕ) : parseNat (natChars n) = some n := by
  by_cases h0 : n = 0
  · subst h0; decide
  · have hne : natChars n ≠ [] := by
      simp only [natChars, h0, if_false, ne_eq, List.reverse_eq_nil_iff]
      exact natDigitsRev_ne_nil h0
    have hall : (natChars n).all isDigitChar = true := by
      rw [List.all_eq_true]
      intro c hc
      exact (isDigitChar_iff c).mpr (natChars_mem hc)
    rw [parseNat, if_neg hne, if_pos hall]
    simp only [natChars, h0, if_false, List.reverse_reverse]
    exact congrArg some (valRevChars_natDigitsRevAux n n le_rfl)

theorem natChars_head_not_dash {n : ℕ} {c : Char} {rest : List Char}
    (h : natChars n = c :: rest) : c ≠ '-' := by
  have hc : c ∈ natChars n := by rw [h]; exact List.mem_cons_self c rest
  have := natChars_mem hc
  exact char_ne_of_toNat_ne (by simp only [show ('-').toNat = 45 from rfl]; omega)

theorem parseInt_intChars (i : ℤ) : parseInt (intChars i) = some i := by
  by_cases hi : i < 0
  · have h2 : ((i.natAbs : ℕ) : ℤ) = -i := Int.ofNat_natAbs_of_nonpos (le_of_lt hi)
    rw [intChars, if_pos hi]
    simp [parseInt, parseNat_natChars, h2]
  · have h2 : ((i.natAbs : ℕ) : ℤ) = i := Int.natAbs_of_nonneg (not_lt.mp hi)
    have hne : natChars i.natAbs ≠ [] := by
      by_cases h0 : i.natAbs = 0
      · rw [h0]; decide
      · simp only [natChars, h0, if_false, ne_eq, List.reverse_eq_nil_iff]
        exact natDigitsRev_ne_nil h0
    obtain ⟨c, rest, hcr⟩ := List.exists_cons_of_ne_nil hne
    have hcdash : c ≠ '-' := natChars_head_not_dash hcr
    rw [intChars, if_neg hi, hcr]
    simp only [parseInt, if_neg hcdash]
    rw [← hcr, parseNat_natChars]
    exact congrArg some h2

theorem pySplit_of_not_mem {sep : Char} :
    ∀ {l : PyStr}, (∀ x ∈ l, x ≠ sep) → pySplit sep l = [l] := by
  intro l
  induction l with
  | nil => intro _; rfl
  | cons c cs ih =>
    intro h
    have hc : c ≠ sep := h c (List.mem_cons_self c cs)
    have hcs := ih (fun x hx => h x (List.mem_cons_of_mem c hx))
    simp [pySplit, hc, hcs]

theorem pySplit_append {sep : Char} :
    ∀ {a : PyStr} (b : PyStr), (∀ x ∈ a, x ≠ sep) →
      pySplit sep (a ++ sep :: b) = a :: pySplit sep b := by
  intro a
  induction a with
  | nil => intro b _; simp [pySplit]
  | cons c a' ih =>
    intro b h
    have hc : c ≠ sep := h c (List.mem_cons_self c a')
    have ha' := ih b (fun x hx => h x (List.mem_cons_of_mem c hx))
    simp [pySplit, hc, ha']

theorem pyIn_append_cons (c : Char) (a b : PyStr) : pyIn c (a ++ c :: b) = true := by
  induction a with
  | nil => simp [pyIn]
  | cons x a' ih => simp [pyIn, ih]

theorem dropWhile_of_all_false {p : Char → Bool} :
    ∀ {l : List Char}, (∀ c ∈ l, p c = false) → l.dropWhile p = l := by
  intro l
  induction l with
  | nil => intro _; rfl
  | cons c cs _ =>
    intro h
    simp [List.dropWhile, h c (List.mem_cons_self c cs)]

/-- The two-character line terminator written by `save_distribution`. -/
def crlf : PyStr := ['\r', '\n']

theorem pyStrip_append_crlf {l : PyStr} (h : ∀ c ∈ l, isPySpace c = false) :
    pyStrip (l ++ crlf) = l := by
  cases l with
  | nil => decide
  | cons c l' =>
    have hc : isPySpace c = false := h c (List.mem_cons_self c l')
    have hdrop1 : (c :: l' ++ crlf).dropWhile isPySpace = c :: l' ++ crlf := by
      simp [List.dropWhile, hc]
    have hrev : (c :: l' ++ crlf).reverse = '\n' :: '\r' :: (c :: l').reverse := by
      simp [crlf]
    have hdrop2 : ('\n' :: '\r' :: (c :: l').reverse).dropWhile isPySpace = (c :: l').reverse := by
      have h1 : isPySpace '\n' = true := by decide
      have h2 : isPySpace '\r' = true := by decide
      simp only [List.dropWhile, h1, h2]
      exact dropWhile_of_all_false (fun x hx => h x (List.mem_reverse.mp hx))
    rw [pyStrip, hdrop1, hrev, hdrop2, List.reverse_reverse]

theorem ratToString_no_space {q : ℚ} : ∀ c ∈ ratToString q, isPySpace c = false := by
  intro c hc
  have h := ratToString_mem hc
  simp only [isPySpace]
  simp only [Bool.or_eq_false_iff, decide_eq_false_iff_not]
  omega

theorem ratToString_not_mem_eq {q : ℚ} : ∀ c ∈ ratToString q, c ≠ '=' := by
  intro c hc
  have h := ratToString_mem hc
  exact char_ne_of_toNat_ne (by simp only [show ('=').toNat = 61 from rfl]; omega)

theorem ratToString_not_mem_comma {q : ℚ} : ∀ c ∈ ratToString q, c ≠ ',' := by
  intro c hc
  have h := ratToString_mem hc
  exact char_ne_of_toNat_ne (by simp only [show (',').toNat = 44 from rfl]; omega)

theorem parseRat_ratToString (q : ℚ) : parseRat (ratToString q) = some q := by
  have hslash_num : ∀ x ∈ intChars q.num, x ≠ '/' := by
    intro x hx
    rcases intChars_mem hx with h | h <;>
      exact char_ne_of_toNat_ne (by simp only [show ('/').toNat = 47 from rfl]; omega)
  have hslash_den : ∀ x ∈ natChars q.den, x ≠ '/' := by
    intro x hx
    have := natChars_mem hx
    exact char_ne_of_toNat_ne (by simp only [show ('/').toNat = 47 from rfl]; omega)
  have hsplit : pySplit '/' (ratToString q) = [intChars q.num, natChars q.den] := by
    rw [ratToString, pySplit_append _ hslash_num, pySplit_of_not_mem hslash_den]
  have hden : q.den ≠ 0 := q.den_nz
  rw [parseRat, hsplit]
  simp only [parseInt_intChars, parseNat_natChars, if_neg hden]
  refine congrArg some ?_
  rw [Rat.mkRat_eq_div]
  exact Rat.num_div_den q

/-! ### The `StepDistribution` data model -/

/-- A step `(OnOff[boolean], Duration[float])`, as in the Python tuples. -/
abbrev Step := Bool × ℚ

/-- The Python exceptions that the modelled code can raise. -/
inductive PyError where
  | indexError
  | valueError
  | ioError
  | attributeError
  | zeroDivisionError
  | nameError
  deriving DecidableEq

instance {ε α : Type} [DecidableEq ε] [DecidableEq α] : DecidableEq (Except ε α) := fun a b =>
  match a, b with
  | .ok x, .ok y =>
    if h : x = y then .isTrue (congrArg Except.ok h)
    else .isFalse (fun hc => h (Except.ok.inj hc))
  | .error x, .error y =>
    if h : x = y then .isTrue (congrArg Except.error h)
    else .isFalse (fun hc => h (Except.error.inj hc))
  | .ok _, .error _ => .isFalse (fun hc => Except.noConfusion hc)
  | .error _, .ok _ => .isFalse (fun hc => Except.noConfusion hc)

/-- The ten generation parameters of `StepDistribution.__init__` (Python keeps
them as floats in the `params` dict; `nSteps` too is coerced to float). -/
structure DistParams where
  nSteps : ℚ
  fracOn : ℚ
  avgDurOn : ℚ
  stdDurOn : ℚ
  minDurOn : ℚ
  maxDurOn : ℚ
  avgDurOff : ℚ
  stdDurOff : ℚ
  minDurOff : ℚ
  maxDurOff : ℚ
  deriving DecidableEq

/-- The three summary statistics stored alongside the parameters. -/
structure SummaryStats where
  fracStepsOn : ℚ
  fracTimeOn : ℚ
  timeTotal : ℚ
  deriving DecidableEq

/-! ### `save_distribution` (serialization) -/

/-- `write_var`: one `varName=value` header line (with the `\r\n` the Python
code appends to every line it writes). -/
def write_var (name : PyStr) (q : ℚ) : PyStr := name ++ '=' :: (ratToString q ++ crlf)

/-- Python `str(bool)`. -/
def boolStr (b : Bool) : PyStr := if b then strOf "True" else strOf "False"

/-- One body line `str(step[0]) + ',' + str(step[1]) + '\r\n'`. -/
def stepLine (s : Step) : PyStr := boolStr s.1 ++ ',' :: (ratToString s.2 ++ crlf)

/-- `StepDistribution.save_distribution`, modelled as the list of lines written
to the file, one list element per `f.write` call. -/
def save_distribution (p : DistParams) (steps : List Step) (st : SummaryStats) : List PyStr :=
  (strOf "Summary statistics" ++ crlf) ::
  write_var (strOf "fracStepsOn") st.fracStepsOn ::
  write_var (strOf "fracTimeOn") st.fracTimeOn ::
  write_var (strOf "timeTotal") st.timeTotal ::
  (strOf "Parameters used in generation" ++ crlf) ::
  write_var (strOf "nSteps") p.nSteps ::
  write_var (strOf "fracOn") p.fracOn ::
  write_var (strOf "avgDurOn") p.avgDurOn ::
  write_var (strOf "stdDurOn") p.stdDurOn ::
  write_var (strOf "minDurOn") p.minDurOn ::
  write_var (strOf "maxDurOn") p.maxDurOn ::
  write_var (strOf "avgDurOff") p.avgDurOff ::
  write_var (strOf "stdDurOff") p.stdDurOff ::
  write_var (strOf "minDurOff") p.minDurOff ::
  write_var (strOf "maxDurOff") p.maxDurOff ::
  (strOf "STEPLIST" ++ crlf) ::
  steps.map stepLine

/-! ### `load_file` (deserialization) -/

/-- `StepDistribution.read_var`: split the stripped line on `'='` and evaluate
the right-hand side as a numeric literal (the Python code `exec`s it; a value
that is not a numeric literal raises, modelled as `nameError`; a line with no
second part would raise an `IndexError`). -/
def read_var (line : PyStr) : Except PyError (PyStr × ℚ) :=
  match pySplit '=' (pyStrip line) with
  | name :: value :: _ =>
    match parseRat value with
    | some q => .ok (name, q)
    | none => .error .nameError
  | _ => .error .indexError

/-- Parsing of one body line: `vals = line.strip().split(',')`,
`(vals[0]=='True', float(vals[1]))`.  A missing second field raises
`IndexError`, an unparseable number raises `ValueError`; the boolean parse is
total (any token other than `True` yields `False`). -/
def parseStepLine (line : PyStr) : Except PyError Step :=
  match pySplit ',' (pyStrip line) with
  | v0 :: v1 :: _ =>
    match parseRat v1 with
    | some q => .ok (decide (v0 = strOf "True"), q)
    | none => .error .valueError
  | _ => .error .indexError

/-- The line loop of `load_file`: the Bool is `stillInHeader`, the association
list is the `params` dict (most recent assignment first, so lookup of the head
matches Python's overwrite semantics), the step list accumulates in order. -/
def loadLines : List PyStr → Bool → List (PyStr × ℚ) → List Step →
    Except PyError (List (PyStr × ℚ) × List Step)
  | [], _, ps, ss => .ok (ps, ss)
  | line :: rest, true, ps, ss =>
    if pyIn '=' line then
      match read_var line with
      | .ok nv =>
        loadLines rest (if pyStrip line = strOf "STEPLIST" then false else true) (nv :: ps) ss
      | .error e => .error e
    else
      loadLines rest (if pyStrip line = strOf "STEPLIST" then false else true) ps ss
  | line :: rest, false, ps, ss =>
    match parseStepLine line with
    | .ok s => loadLines rest false ps (ss ++ [s])
    | .error e => .error e

/-- Dictionary lookup in the `params` dict. -/
def pyLookup : List (PyStr × ℚ) → PyStr → Option ℚ
  | [], _ => none
  | (k, v) :: ps, f => if k = f then some v else pyLookup ps f

/-- The thirteen fields `load_file` requires, in the order the source lists
them. -/
def expectedFields : List PyStr :=
  [strOf "nSteps", strOf "fracOn", strOf "avgDurOn", strOf "stdDurOn", strOf "minDurOn",
   strOf "maxDurOn", strOf "avgDurOff", strOf "stdDurOff", strOf "minDurOff", strOf "maxDurOff",
   strOf "fracStepsOn", strOf "fracTimeOn", strOf "timeTotal"]

/-- Read one field out of the final dict (only used under the guard that the
field is present). -/
def getVar (ps : List (PyStr × ℚ)) (f : String) : ℚ := (pyLookup ps (strOf f)).getD 0

/-- `StepDistribution.load_file`: run the line loop, then check the thirteen
expected fields (raising `IOError` if one is missing) and package the
resulting parameters, step list and summary statistics. -/
def load_file (lines : List PyStr) : Except PyError (DistParams × List Step × SummaryStats) :=
  match loadLines lines true [] [] with
  | .error e => .error e
  | .ok (ps, steps) =>
    if expectedFields.all (fun f => (pyLookup ps f).isSome) then
      .ok ({ nSteps := getVar ps "nSteps", fracOn := getVar ps "fracOn",
             avgDurOn := getVar ps "avgDurOn", stdDurOn := getVar ps "stdDurOn",
             minDurOn := getVar ps "minDurOn", maxDurOn := getVar ps "maxDurOn",
             avgDurOff := getVar ps "avgDurOff", stdDurOff := getVar ps "stdDurOff",
             minDurOff := getVar ps "minDurOff", maxDurOff := getVar ps "maxDurOff" },
           steps,
           { fracStepsOn := getVar ps "fracStepsOn", fracTimeOn := getVar ps "fracTimeOn",
             timeTotal := getVar ps "timeTotal" })
    else .error .ioError

/-! ### Round trip of `save_distribution` and `load_file` -/

theorem pyStrip_write_var (name : PyStr) (q : ℚ) (hs : ∀ c ∈ name, isPySpace c = false) :
    pyStrip (write_var name q) = name ++ '=' :: ratToString q := by
  have hassoc : write_var name q = (name ++ '=' :: ratToString q) ++ crlf := by
    simp [write_var]
  have hnosp : ∀ c ∈ name ++ '=' :: ratToString q, isPySpace c = false := by
    intro c hc
    rcases List.mem_append.mp hc with h | h
    · exact hs c h
    · rcases List.mem_cons.mp h with h | h
      · subst h; decide
      · exact ratToString_no_space c h
  rw [hassoc]
  exact pyStrip_append_crlf hnosp

theorem read_var_write_var (name : PyStr) (q : ℚ)
    (hs : ∀ c ∈ name, isPySpace c = false) (he : ∀ c ∈ name, c ≠ '=') :
    read_var (write_var name q) = .ok (name, q) := by
  have hstrip := pyStrip_write_var name q hs
  have hsplit : pySplit '=' (name ++ '=' :: ratToString q) = [name, ratToString q] := by
    rw [pySplit_append _ he, pySplit_of_not_mem ratToString_not_mem_eq]
  simp only [read_var, hstrip, hsplit, parseRat_ratToString]

theorem loadLines_skip (line : PyStr) (rest : List PyStr) (ps : List (PyStr × ℚ))
    (ss : List Step) (h1 : pyIn '=' line = false) (h2 : ¬ pyStrip line = strOf "STEPLIST") :
    loadLines (line :: rest) true ps ss = loadLines rest true ps ss := by
  simp [loadLines, h1, h2]

theorem loadLines_writeVar (name : PyStr) (q : ℚ) (rest : List PyStr)
    (ps : List (PyStr × ℚ)) (ss : List Step)
    (hs : ∀ c ∈ name, isPySpace c = false) (he : ∀ c ∈ name, c ≠ '=') :
    loadLines (write_var name q :: rest) true ps ss =
      loadLines rest true ((name, q) :: ps) ss := by
  have hin : pyIn '=' (write_var name q) = true := by
    rw [write_var]; exact pyIn_append_cons '=' name (ratToString q ++ crlf)
  have hrv := read_var_write_var name q hs he
  have hm : ¬ pyStrip (write_var name q) = strOf "STEPLIST" := by
    rw [pyStrip_write_var name q hs]
    intro hcontra
    have hmem : '=' ∈ strOf "STEPLIST" := by
      rw [← hcontra]
      exact List.mem_append_right _ (List.mem_cons_self _ _)
    exact absurd hmem (by decide)
  simp [loadLines, hin, hrv, hm]

theorem loadLines_marker (rest : List PyStr) (ps : List (PyStr × ℚ)) (ss : List Step) :
    loadLines ((strOf "STEPLIST" ++ crlf) :: rest) true ps ss = loadLines rest false ps ss := by
  have h1 : pyIn '=' (strOf "STEPLIST" ++ crlf) = false := by decide
  have h2 : pyStrip (strOf "STEPLIST" ++ crlf) = strOf "STEPLIST" := by decide
  simp [loadLines, h1, h2]

theorem parseStepLine_stepLine (s : Step) : parseStepLine (stepLine s) = .ok s := by
  obtain ⟨b, q⟩ := s
  have hcomma : ∀ c ∈ boolStr b, c ≠ ',' := by cases b <;> decide
  have hassoc : stepLine (b, q) = (boolStr b ++ ',' :: ratToString q) ++ crlf := by
    simp [stepLine]
  have hsb : ∀ c ∈ boolStr b, isPySpace c = false := by cases b <;> decide
  have hnosp : ∀ c ∈ boolStr b ++ ',' :: ratToString q, isPySpace c = false := by
    intro c hc
    rcases List.mem_append.mp hc with h | h
    · exact hsb c h
    · rcases List.mem_cons.mp h with h | h
      · subst h; decide
      · exact ratToString_no_space c h
  have hstrip : pyStrip (stepLine (b, q)) = boolStr b ++ ',' :: ratToString q := by
    rw [hassoc]; exact pyStrip_append_crlf hnosp
  have hsplit : pySplit ',' (boolStr b ++ ',' :: ratToString q) = [boolStr b, ratToString q] := by
    rw [pySplit_append _ hcomma, pySplit_of_not_mem ratToString_not_mem_comma]
  have hbool : (decide (boolStr b = strOf "True")) = b := by cases b <;> decide
  simp only [parseStepLine, hstrip, hsplit, parseRat_ratToString, hbool]

theorem loadLines_body (steps : List Step) (ps : List (PyStr × ℚ)) :
    ∀ ss : List Step, loadLines (steps.map stepLine) false ps ss = .ok (ps, ss ++ steps) := by
  induction steps with
  | nil => intro ss; simp [loadLines]
  | cons s t ih =>
    intro ss
    simp only [List.map_cons, loadLines, parseStepLine_stepLine, ih]
    simp

/-- The `params` dict as it stands just after the header of a saved file has
been read back (most recent assignment first). -/
def savedDict (p : DistParams) (st : SummaryStats) : List (PyStr × ℚ) :=
  [(strOf "maxDurOff", p.maxDurOff), (strOf "minDurOff", p.minDurOff),
   (strOf "stdDurOff", p.stdDurOff), (strOf "avgDurOff", p.avgDurOff),
   (strOf "maxDurOn", p.maxDurOn), (strOf "minDurOn", p.minDurOn),
   (strOf "stdDurOn", p.stdDurOn), (strOf "avgDurOn", p.avgDurOn),
   (strOf "fracOn", p.fracOn), (strOf "nSteps", p.nSteps),
   (strOf "timeTotal", st.timeTotal), (strOf "fracTimeOn", st.fracTimeOn),
   (strOf "fracStepsOn", st.fracStepsOn)]

theorem loadLines_save (p : DistParams) (steps : List Step) (st : SummaryStats) :
    loadLines (save_distribution p steps st) true [] [] = .ok (savedDict p st, steps) := by
  rw [save_distribution]
  rw [loadLines_skip _ _ _ _ (by decide) (by decide)]
  rw [loadLines_writeVar _ _ _ _ _ (by decide) (by decide)]
  rw [loadLines_writeVar _ _ _ _ _ (by decide) (by decide)]
  rw [loadLines_writeVar _ _ _ _ _ (by decide) (by decide)]
  rw [loadLines_skip _ _ _ _ (by decide) (by decide)]
  rw [loadLines_writeVar _ _ _ _ _ (by decide) (by decide)]
  rw [loadLines_writeVar _ _ _ _ _ (by decide) (by decide)]
  rw [loadLines_writeVar _ _ _ _ _ (by decide) (by decide)]
  rw [loadLines_writeVar _ _ _ _ _ (by decide) (by decide)]
  rw [loadLines_writeVar _ _ _ _ _ (by decide) (by decide)]
  rw [loadLines_writeVar _ _ _ _ _ (by decide) (by decide)]
  rw [loadLines_writeVar _ _ _ _ _ (by decide) (by decide)]
  rw [loadLines_writeVar _ _ _ _ _ (by decide) (by decide)]
  rw [loadLines_writeVar _ _ _ _ _ (by decide) (by decide)]
  rw [loadLines_writeVar _ _ _ _ _ (by decide) (by decide)]
  rw [loadLines_marker, loadLines_body]
  rfl

/-- C2: for every triple (parameters, step sequence, summary statistics),
`load_file (save_distribution p steps st)` reproduces the triple exactly —
field-by-field for the thirteen header values and element-wise (boolean and
duration) for the step list.  (Numeric values are the idealized exact
rationals; their rendering is exact by construction.) -/
theorem c2_serialize_load_roundtrip (p : DistParams) (steps : List Step) (st : SummaryStats) :
    load_file (save_distribution p steps st) = .ok (p, steps, st) := by
  simp only [load_file, loadLines_save]
  rfl

/-! ### The sequence generator (`__set_seq`, `bounded_gaussian_list`,
`__distribution_details`) -/

/-- Python 2's `round`: to the nearest integer, halves away from zero. -/
def pyRound (q : ℚ) : ℤ := if 0 ≤ q then ⌊q + 1 / 2⌋ else -⌊-q + 1 / 2⌋

/-- Python's `int()` on a float: truncation toward zero. -/
def intTrunc (q : ℚ) : ℤ := if 0 ≤ q then ⌊q⌋ else ⌈q⌉

/-- `StepDistribution.bounded_gaussian_list`.  The `nElem` draws of
`random.gauss(avgDur, stdDur)` are supplied by the abstract stream `gauss`
(so `avgDur` and `stdDur` only feed the sampler); each draw is clamped by
`min(max(minDur, x), maxDur)`. -/
def bounded_gaussian_list (nElem : ℕ) (gauss : ℕ → ℚ)
    (avgDur stdDur minDur maxDur : ℚ) : List ℚ :=
  ((List.range nElem).map gauss).map (fun x => min (max minDur x) maxDur)

/-- The step-list construction of `StepDistribution.__set_seq`:
`nOn = round(fracOn*nSteps)`, `nOff = nSteps - nOn`, the two bounded-Gaussian
lists tagged `True`/`False`, concatenated and shuffled.  `random.shuffle` is
abstracted by the `shuffle` function. -/
def gen_steps (p : DistParams) (gaussOn gaussOff : ℕ → ℚ)
    (shuffle : List Step → List Step) : List Step :=
  let nOn : ℤ := pyRound (p.fracOn * p.nSteps)
  let nOff : ℚ := p.nSteps - (nOn : ℚ)
  let onList := (bounded_gaussian_list nOn.toNat gaussOn
      p.avgDurOn p.stdDurOn p.minDurOn p.maxDurOn).map (fun v => (true, v))
  let offList := (bounded_gaussian_list (intTrunc nOff).toNat gaussOff
      p.avgDurOff p.stdDurOff p.minDurOff p.maxDurOff).map (fun v => (false, v))
  shuffle (onList ++ offList)

/-- Total duration of a step list (`sum([step[1] for step in stepList])`). -/
def timeTotalOf (l : List Step) : ℚ := (l.map (fun s => s.2)).sum

/-- Total on-duration (`sum([step[1] if step[0] else 0 for step in stepList])`). -/
def onTimeOf (l : List Step) : ℚ := (l.map (fun s => if s.1 then s.2 else 0)).sum

/-- Number of on steps (`sum([step[0] for step in stepList])`, Python summing
booleans as 0/1). -/
def nOnOf (l : List Step) : ℕ := (l.filter (fun s => s.1)).length

/-- `StepDistribution.__distribution_details`: the two divisions raise
`ZeroDivisionError` when their denominators (`len(stepList)`, `timeTotal`)
are zero; otherwise returns `(fracStepsOn, fracTimeOn, timeTotal)`. -/
def distribution_details (l : List Step) : Except PyError (ℚ × ℚ × ℚ) :=
  if l.length = 0 then .error .zeroDivisionError
  else if timeTotalOf l = 0 then .error .zeroDivisionError
  else .ok ((nOnOf l : ℚ) / (l.length : ℚ), onTimeOf l / timeTotalOf l, timeTotalOf l)

/-- `StepDistribution.__set_seq`: build the step list, then compute the
summary statistics over it (the computation can raise `ZeroDivisionError`). -/
def set_seq (p : DistParams) (gaussOn gaussOff : ℕ → ℚ)
    (shuffle : List Step → List Step) : Except PyError (List Step × SummaryStats) :=
  let steps := gen_steps p gaussOn gaussOff shuffle
  match distribution_details steps with
  | .error e => .error e
  | .ok (a, b, c) => .ok (steps, ⟨a, b, c⟩)

/-! ### The `MicToggler` playback scheduler -/

/-- The mutable state of a `MicToggler` object: the sequence, the current
step index `iStep`, the `currentlyToggling` flag, whether `self.t` has ever
been assigned (`tDefined`), and whether the pending timer is armed. -/
structure TogState where
  sequence : List Step
  iStep : ℕ
  currentlyToggling : Bool
  tDefined : Bool
  tArmed : Bool
  deriving DecidableEq

/-- Observable events: an invocation of the volume effect (`setMicVol` /
`makeMicLoud`) with its boolean, or the arming of a timer with its delay. -/
inductive TogEvent where
  | eff (b : Bool)
  | sched (delay : ℚ)
  deriving DecidableEq

/-- State after `MicToggler.__init__` (no timer exists yet; `iStep` is not
yet assigned in Python and is never read before `run` sets it — modelled
as 0). -/
def initToggler (sequence : List Step) : TogState :=
  { sequence := sequence, iStep := 0, currentlyToggling := false,
    tDefined := false, tArmed := false }

/-- Python list indexing `l[i]` for a nonnegative index: `IndexError` when
out of range. -/
def seqGet (l : List Step) (i : ℕ) : Except PyError Step :=
  match l.get? i with
  | some s => .ok s
  | none => .error .indexError

/-- `MicToggler.stop`: `self.t.cancel()` (an `AttributeError` if `self.t`
was never assigned), clear `currentlyToggling`, then `makeMicLoud()` —
one effect invocation with `true`. -/
def stop (st : TogState) : List TogEvent × Except PyError TogState :=
  if st.tDefined then
    ([TogEvent.eff true], .ok { st with tArmed := false, currentlyToggling := false })
  else ([], .error .attributeError)

/-- `MicToggler.__doStep`: cancel the timer, invoke the effect with
`sequence[iStep][0]`, then — if `iStep < len(sequence) and currentlyToggling`
— increment `iStep` and arm a timer for `sequence[iStep][1]` (the
post-increment index!), else call `stop`.  Returns the events emitted and
either the next state or the exception raised. -/
def doStep (st0 : TogState) : List TogEvent × Except PyError TogState :=
  let st := { st0 with tArmed := false }
  match seqGet st.sequence st.iStep with
  | .error e => ([], .error e)
  | .ok s =>
    if st.iStep < st.sequence.length ∧ st.currentlyToggling = true then
      let st1 := { st with iStep := st.iStep + 1 }
      match seqGet st1.sequence st1.iStep with
      | .error e => ([TogEvent.eff s.1], .error e)
      | .ok s2 =>
        ([TogEvent.eff s.1, TogEvent.sched s2.2],
         .ok { st1 with tDefined := true, tArmed := true })
    else
      let r := stop st
      (TogEvent.eff s.1 :: r.1, r.2)

/-- `MicToggler.run`: set `currentlyToggling`, `iStep = 0`, and arm the
initial timer with the small nonzero delay `0.01`. -/
def run (st : TogState) : List TogEvent × TogState :=
  ([TogEvent.sched (mkRat 1 100)],
   { st with currentlyToggling := true, iStep := 0, tDefined := true, tArmed := true })

/-- Drive the scheduler: while a timer is armed, let it fire (`doStep`),
accumulating events, stopping at an exception or when no timer is armed.
`fuel` bounds the number of timer firings. -/
def runTimers : ℕ → TogState → List TogEvent × Except PyError TogState
  | 0, st => ([], .ok st)
  | fuel + 1, st =>
    if st.tArmed then
      match doStep st with
      | (evs, .error e) => (evs, .error e)
      | (evs, .ok st1) =>
        let r := runTimers fuel st1
        (evs ++ r.1, r.2)
    else ([], .ok st)

/-- The effect-invocation trace (the booleans passed to the callback, in
order). -/
def effectsOf (evs : List TogEvent) : List Bool :=
  evs.filterMap (fun e => match e with | .eff b => some b | _ => none)

/-! ### Helper lemmas for the generator claims -/

theorem pyRound_nonneg {q : ℚ} (h : 0 ≤ q) : 0 ≤ pyRound q := by
  rw [pyRound, if_pos h]
  exact Int.le_floor.mpr (by push_cast; linarith)

theorem pyRound_le_nat {q : ℚ} {n : ℕ} (h0 : 0 ≤ q) (h : q ≤ (n : ℚ)) :
    pyRound q ≤ (n : ℤ) := by
  rw [pyRound, if_pos h0]
  have hlt : ⌊q + 1 / 2⌋ < (n : ℤ) + 1 := Int.floor_lt.mpr (by push_cast; linarith)
  omega

theorem intTrunc_intCast (m : ℤ) : intTrunc ((m : ℤ) : ℚ) = m := by
  by_cases h : 0 ≤ ((m : ℤ) : ℚ)
  · rw [intTrunc, if_pos h, Int.floor_intCast]
  · rw [intTrunc, if_neg h, Int.ceil_intCast]

theorem length_bounded_gaussian_list (nElem : ℕ) (gauss : ℕ → ℚ)
    (avgDur stdDur minDur maxDur : ℚ) :
    (bounded_gaussian_list nElem gauss avgDur stdDur minDur maxDur).length = nElem := by
  simp [bounded_gaussian_list]

theorem get?_bounded_gaussian_list (nElem : ℕ) (gauss : ℕ → ℚ)
    (avgDur stdDur minDur maxDur : ℚ) {i : ℕ} (hi : i < nElem) :
    (bounded_gaussian_list nElem gauss avgDur stdDur minDur maxDur).get? i =
      some (min (max minDur (gauss i)) maxDur) := by
  simp [bounded_gaussian_list, List.get?_eq_getElem?, List.getElem?_map,
    List.getElem?_range, hi]

theorem mem_bounded_gaussian_list {nElem : ℕ} {gauss : ℕ → ℚ}
    {avgDur stdDur minDur maxDur : ℚ} {x : ℚ}
    (hx : x ∈ bounded_gaussian_list nElem gauss avgDur stdDur minDur maxDur) :
    ∃ i, i < nElem ∧ x = min (max minDur (gauss i)) maxDur := by
  simp only [bounded_gaussian_list, List.mem_map, List.mem_range] at hx
  obtain ⟨y, ⟨i, hi, hy⟩, hxy⟩ := hx
  exact ⟨i, hi, by rw [← hxy, ← hy]⟩

theorem countP_map_true_on (l : List ℚ) :
    (l.map (fun v => (true, v))).countP (fun s : Step => s.1) = l.length := by
  induction l with
  | nil => rfl
  | cons x t ih => simp [List.countP_cons, ih]

theorem countP_map_true_off (l : List ℚ) :
    (l.map (fun v => (false, v))).countP (fun s : Step => s.1) = 0 := by
  induction l with
  | nil => rfl
  | cons x t ih => simp [List.countP_cons, ih]

theorem countP_map_not_on (l : List ℚ) :
    (l.map (fun v => (true, v))).countP (fun s : Step => !s.1) = 0 := by
  induction l with
  | nil => rfl
  | cons x t ih => simp [List.countP_cons, ih]

theorem countP_map_not_off (l : List ℚ) :
    (l.map (fun v => (false, v))).countP (fun s : Step => !s.1) = l.length := by
  induction l with
  | nil => rfl
  | cons x t ih => simp [List.countP_cons, ih]

/-! ### Claim theorems for the generator -/

/-- C3: for valid parameters (positive integer `nSteps`, `fracOn ∈ [0,1]`)
and any random draws and any shuffle that permutes its input, the generated
step sequence has length exactly `nSteps`, with exactly
`round(fracOn*nSteps)` steps tagged on and `nSteps - round(fracOn*nSteps)`
steps tagged off. -/
theorem c3_generate_counts (p : DistParams) (gaussOn gaussOff : ℕ → ℚ)
    (shuffle : List Step → List Step) (hsh : ∀ l, (shuffle l).Perm l)
    (n : ℕ) (hn : p.nSteps = (n : ℚ)) (hpos : 1 ≤ n)
    (h0 : 0 ≤ p.fracOn) (h1 : p.fracOn ≤ 1) :
    (gen_steps p gaussOn gaussOff shuffle).length = n ∧
    (gen_steps p gaussOn gaussOff shuffle).countP (fun s => s.1) =
      (pyRound (p.fracOn * p.nSteps)).toNat ∧
    (pyRound (p.fracOn * p.nSteps)).toNat ≤ n ∧
    (gen_steps p gaussOn gaussOff shuffle).countP (fun s => !s.1) =
      n - (pyRound (p.fracOn * p.nSteps)).toNat := by
  have hq0 : 0 ≤ p.fracOn * p.nSteps := by
    rw [hn]; exact mul_nonneg h0 (Nat.cast_nonneg n)
  have hqn : p.fracOn * p.nSteps ≤ (n : ℚ) := by
    rw [hn]; exact mul_le_of_le_one_left (Nat.cast_nonneg n) h1
  have hk0 : 0 ≤ pyRound (p.fracOn * p.nSteps) := pyRound_nonneg hq0
  have hkn : pyRound (p.fracOn * p.nSteps) ≤ (n : ℤ) := pyRound_le_nat hq0 hqn
  have hoffn : (intTrunc (p.nSteps - ((pyRound (p.fracOn * p.nSteps) : ℤ) : ℚ))).toNat =
      n - (pyRound (p.fracOn * p.nSteps)).toNat := by
    have hcast : p.nSteps - ((pyRound (p.fracOn * p.nSteps) : ℤ) : ℚ) =
        (((n : ℤ) - pyRound (p.fracOn * p.nSteps) : ℤ) : ℚ) := by
      rw [hn]; push_cast; ring
    rw [hcast, intTrunc_intCast]
    omega
  have hperm := hsh
      ((bounded_gaussian_list (pyRound (p.fracOn * p.nSteps)).toNat gaussOn
          p.avgDurOn p.stdDurOn p.minDurOn p.maxDurOn).map (fun v => (true, v)) ++
       (bounded_gaussian_list
          (intTrunc (p.nSteps - ((pyRound (p.fracOn * p.nSteps) : ℤ) : ℚ))).toNat gaussOff
          p.avgDurOff p.stdDurOff p.minDurOff p.maxDurOff).map (fun v => (false, v)))
  have hgen : gen_steps p gaussOn gaussOff shuffle =
      shuffle
        ((bounded_gaussian_list (pyRound (p.fracOn * p.nSteps)).toNat gaussOn
            p.avgDurOn p.stdDurOn p.minDurOn p.maxDurOn).map (fun v => (true, v)) ++
         (bounded_gaussian_list
            (intTrunc (p.nSteps - ((pyRound (p.fracOn * p.nSteps) : ℤ) : ℚ))).toNat gaussOff
            p.avgDurOff p.stdDurOff p.minDurOff p.maxDurOff).map (fun v => (false, v))) := rfl
  refine ⟨?_, ?_, ?_, ?_⟩
  · rw [hgen, hperm.length_eq]
    simp only [List.length_append, List.length_map, length_bounded_gaussian_list, hoffn]
    omega
  · rw [hgen, hperm.countP_eq, List.countP_append, countP_map_true_on, countP_map_true_off,
      length_bounded_gaussian_list]
    omega
  · omega
  · rw [hgen, hperm.countP_eq, List.countP_append, countP_map_not_on, countP_map_not_off,
      length_bounded_gaussian_list, hoffn]
    omega

/-- C3 witness: a concrete instantiation (`nSteps = 3`, `fracOn = 1/2`,
constant draws, identity shuffle). -/
theorem c3_generate_counts_witness :
    (gen_steps ⟨3, mkRat 1 2, 1, 1, 0, 2, 1, 1, 0, 2⟩ (fun _ => 1) (fun _ => 1) id).length = 3 ∧
    (gen_steps ⟨3, mkRat 1 2, 1, 1, 0, 2, 1, 1, 0, 2⟩ (fun _ => 1) (fun _ => 1) id).countP
        (fun s => s.1) =
      (pyRound ((⟨3, mkRat 1 2, 1, 1, 0, 2, 1, 1, 0, 2⟩ : DistParams).fracOn *
        (⟨3, mkRat 1 2, 1, 1, 0, 2, 1, 1, 0, 2⟩ : DistParams).nSteps)).toNat ∧
    (pyRound ((⟨3, mkRat 1 2, 1, 1, 0, 2, 1, 1, 0, 2⟩ : DistParams).fracOn *
        (⟨3, mkRat 1 2, 1, 1, 0, 2, 1, 1, 0, 2⟩ : DistParams).nSteps)).toNat ≤ 3 ∧
    (gen_steps ⟨3, mkRat 1 2, 1, 1, 0, 2, 1, 1, 0, 2⟩ (fun _ => 1) (fun _ => 1) id).countP
        (fun s => !s.1) =
      3 - (pyRound ((⟨3, mkRat 1 2, 1, 1, 0, 2, 1, 1, 0, 2⟩ : DistParams).fracOn *
        (⟨3, mkRat 1 2, 1, 1, 0, 2, 1, 1, 0, 2⟩ : DistParams).nSteps)).toNat :=
  c3_generate_counts ⟨3, mkRat 1 2, 1, 1, 0, 2, 1, 1, 0, 2⟩ (fun _ => 1) (fun _ => 1) id
    (fun l => List.Perm.refl l) 3 (by decide) (by decide) (by decide) (by decide)

/-- C4: with `categoryMin ≤ categoryMax`, the bounded-Gaussian list has
exactly `nElem` elements (nothing dropped or resampled), every element lies
in `[categoryMin, categoryMax]`, the `i`-th element is the saturating clamp
of the `i`-th draw, a draw below the minimum becomes the minimum, and a
draw above the maximum becomes the maximum. -/
theorem c4_clamp (nElem : ℕ) (gauss : ℕ → ℚ) (avgDur stdDur minDur maxDur : ℚ)
    (hminmax : minDur ≤ maxDur) :
    (bounded_gaussian_list nElem gauss avgDur stdDur minDur maxDur).length = nElem ∧
    (∀ x ∈ bounded_gaussian_list nElem gauss avgDur stdDur minDur maxDur,
      minDur ≤ x ∧ x ≤ maxDur) ∧
    (∀ i, i < nElem →
      (bounded_gaussian_list nElem gauss avgDur stdDur minDur maxDur).get? i =
        some (min (max minDur (gauss i)) maxDur) ∧
      (gauss i < minDur →
        (bounded_gaussian_list nElem gauss avgDur stdDur minDur maxDur).get? i = some minDur) ∧
      (maxDur < gauss i →
        (bounded_gaussian_list nElem gauss avgDur stdDur minDur maxDur).get? i = some maxDur)) := by
  refine ⟨length_bounded_gaussian_list _ _ _ _ _ _, ?_, ?_⟩
  · intro x hx
    obtain ⟨i, _, hxi⟩ := mem_bounded_gaussian_list hx
    subst hxi
    constructor
    · exact le_min (le_max_left _ _) hminmax
    · exact min_le_right _ _
  · intro i hi
    refine ⟨get?_bounded_gaussian_list _ _ _ _ _ _ hi, ?_, ?_⟩
    · intro hlt
      rw [get?_bounded_gaussian_list _ _ _ _ _ _ hi, max_eq_left (le_of_lt hlt),
        min_eq_left hminmax]
    · intro hgt
      have hmax : max minDur (gauss i) = gauss i :=
        max_eq_right (le_of_lt (lt_of_le_of_lt hminmax hgt))
      rw [get?_bounded_gaussian_list _ _ _ _ _ _ hi, hmax, min_eq_right (le_of_lt hgt)]

/-- C4 witness: three draws `5, -1, 10` against bounds `[0, 4]`. -/
theorem c4_clamp_witness :
    (bounded_gaussian_list 3 (fun i => if i = 0 then 5 else if i = 1 then -1 else 10)
        1 1 0 4).length = 3 ∧
    (∀ x ∈ bounded_gaussian_list 3 (fun i => if i = 0 then 5 else if i = 1 then -1 else 10)
        1 1 0 4, (0:ℚ) ≤ x ∧ x ≤ 4) ∧
    (∀ i, i < 3 →
      (bounded_gaussian_list 3 (fun i => if i = 0 then 5 else if i = 1 then -1 else 10)
          1 1 0 4).get? i =
        some (min (max 0 ((fun i => if i = 0 then 5 else if i = 1 then -1 else (10:ℚ)) i)) 4) ∧
      ((fun i => if i = 0 then 5 else if i = 1 then -1 else (10:ℚ)) i < 0 →
        (bounded_gaussian_list 3 (fun i => if i = 0 then 5 else if i = 1 then -1 else 10)
            1 1 0 4).get? i = some 0) ∧
      ((4:ℚ) < (fun i => if i = 0 then 5 else if i = 1 then -1 else (10:ℚ)) i →
        (bounded_gaussian_list 3 (fun i => if i = 0 then 5 else if i = 1 then -1 else 10)
            1 1 0 4).get? i = some 4)) :=
  c4_clamp 3 (fun i => if i = 0 then 5 else if i = 1 then -1 else 10) 1 1 0 4 (by decide)

/-- C10: with inverted bounds (`categoryMin > categoryMax`), every drawn
sample is deterministically mapped to `categoryMax`, because the lower
clamp `max(minDur, x)` is applied first and the upper clamp
`min(·, maxDur)` second. -/
theorem c10_inverted_bounds (nElem : ℕ) (gauss : ℕ → ℚ) (avgDur stdDur minDur maxDur : ℚ)
    (hinv : maxDur < minDur) :
    (bounded_gaussian_list nElem gauss avgDur stdDur minDur maxDur).length = nElem ∧
    (∀ x ∈ bounded_gaussian_list nElem gauss avgDur stdDur minDur maxDur, x = maxDur) := by
  refine ⟨length_bounded_gaussian_list _ _ _ _ _ _, ?_⟩
  intro x hx
  obtain ⟨i, _, hxi⟩ := mem_bounded_gaussian_list hx
  subst hxi
  exact min_eq_right (le_of_lt (lt_of_lt_of_le hinv (le_max_left _ _)))

/-- C10 witness: bounds `min = 3 > max = 1`, draws `0` and `2` both land at
the maximum `1`. -/
theorem c10_inverted_bounds_witness :
    (bounded_gaussian_list 2 (fun i => if i = 0 then 0 else 2) 1 1 3 1).length = 2 ∧
    (∀ x ∈ bounded_gaussian_list 2 (fun i => if i = 0 then 0 else 2) 1 1 3 1, x = 1) :=
  c10_inverted_bounds 2 (fun i => if i = 0 then 0 else 2) 1 1 3 1 (by decide)

/-- C5: for a realized sequence with at least one step and positive total
duration, the summary statistics are exactly
`fracStepsOn = (#on)/nSteps`, `fracTimeOn = (on time)/(total time)`, and
`timeTotal = sum of all durations` (returned in the source's tuple order
`(fracStepsOn, fracTimeOn, timeTotal)`). -/
theorem c5_stats (steps : List Step) (h1 : 1 ≤ steps.length)
    (h2 : 0 < timeTotalOf steps) :
    distribution_details steps =
      .ok ((nOnOf steps : ℚ) / (steps.length : ℚ),
           onTimeOf steps / timeTotalOf steps, timeTotalOf steps) := by
  have hl : ¬ steps.length = 0 := by omega
  have ht : ¬ timeTotalOf steps = 0 := ne_of_gt h2
  rw [distribution_details, if_neg hl, if_neg ht]

/-- C5 witness: the sequence `[(on,1),(off,2)]` gives
`(1/2, 1/3, 3)`. -/
theorem c5_stats_witness :
    distribution_details [(true, 1), (false, 2)] =
      .ok ((nOnOf [(true, 1), (false, 2)] : ℚ) / (([(true, 1), (false, 2)] : List Step).length : ℚ),
           onTimeOf [(true, 1), (false, 2)] / timeTotalOf [(true, 1), (false, 2)],
           timeTotalOf [(true, 1), (false, 2)]) :=
  c5_stats [(true, 1), (false, 2)] (by decide)
    (by norm_num [timeTotalOf])

/-! ### Load-failure conditions (C7) -/

/-- The `params` dict that the header pass of `load_file` collects (empty if
the line loop raised). -/
def headerOf (lines : List PyStr) : List (PyStr × ℚ) :=
  match loadLines lines true [] [] with
  | .ok (ps, _) => ps
  | .error _ => []

/-- The body lines of a file: the lines strictly after the `STEPLIST` marker
line, following the same `stillInHeader` flag updates as `load_file`. -/
def splitBody : List PyStr → Bool → List PyStr
  | [], _ => []
  | l :: ls, false => l :: splitBody ls false
  | l :: ls, true => splitBody ls (if pyStrip l = strOf "STEPLIST" then false else true)

theorem loadLines_ok_body :
    ∀ (lines : List PyStr) (flag : Bool) (ps : List (PyStr × ℚ)) (ss : List Step)
      (r : List (PyStr × ℚ) × List Step),
      loadLines lines flag ps ss = .ok r →
      ∀ l ∈ splitBody lines flag, (parseStepLine l).isOk = true := by
  intro lines
  induction lines with
  | nil =>
    intro flag ps ss r _ l hl
    cases flag <;> simp [splitBody] at hl
  | cons line rest ih =>
    intro flag ps ss r hok l hl
    cases flag with
    | false =>
      simp only [splitBody, List.mem_cons] at hl
      simp only [loadLines] at hok
      rcases hl with hl | hl
      · subst hl
        cases hps : parseStepLine l with
        | ok s => simp [hps, Except.isOk, Except.toBool]
        | error e => rw [hps] at hok; exact absurd hok (by simp)
      · cases hps : parseStepLine line with
        | ok s =>
          rw [hps] at hok
          exact ih false ps (ss ++ [s]) r hok l hl
        | error e => rw [hps] at hok; exact absurd hok (by simp)
    | true =>
      simp only [splitBody] at hl
      simp only [loadLines] at hok
      by_cases hin : pyIn '=' line = true
      · rw [if_pos hin] at hok
        cases hrv : read_var line with
        | ok nv =>
          rw [hrv] at hok
          exact ih _ (nv :: ps) ss r hok l hl
        | error e => rw [hrv] at hok; exact absurd hok (by simp)
      · rw [if_neg hin] at hok
        exact ih _ ps ss r hok l hl

/-- C7: if `load_file` succeeds, then each of the thirteen expected fields
was present in the header and every body line parsed into a (boolean, real)
pair — contrapositively, a missing field or an unparseable step line makes
`load_file` fail, and in a failure no partially recovered value is returned
(the `Except` carries no payload on error). -/
theorem c7_load_failure_conditions (lines : List PyStr)
    (r : DistParams × List Step × SummaryStats) (hok : load_file lines = .ok r) :
    (∀ f ∈ expectedFields, (pyLookup (headerOf lines) f).isSome = true) ∧
    (∀ l ∈ splitBody lines true, (parseStepLine l).isOk = true) := by
  simp only [load_file] at hok
  cases hll : loadLines lines true [] [] with
  | error e => rw [hll] at hok; exact absurd hok (by simp)
  | ok pr =>
    obtain ⟨ps, steps⟩ := pr
    rw [hll] at hok
    by_cases hall : expectedFields.all (fun f => (pyLookup ps f).isSome) = true
    · refine ⟨?_, loadLines_ok_body lines true [] [] (ps, steps) hll⟩
      intro f hf
      have hva := List.all_eq_true.mp hall f hf
      simpa [headerOf, hll] using hva
    · dsimp only at hok
      rw [if_neg hall] at hok
      exact absurd hok (by simp)

/-- C7 witness: a concrete well-formed file (the serialization of a concrete
distribution) on which `load_file` succeeds and both conclusions hold. -/
theorem c7_load_failure_conditions_witness :
    (∀ f ∈ expectedFields,
      (pyLookup (headerOf (save_distribution ⟨1, 1, 1, 1, 1, 1, 1, 1, 1, 1⟩ [(true, 2)] ⟨1, 1, 2⟩))
          f).isSome = true) ∧
    (∀ l ∈ splitBody (save_distribution ⟨1, 1, 1, 1, 1, 1, 1, 1, 1, 1⟩ [(true, 2)] ⟨1, 1, 2⟩) true,
      (parseStepLine l).isOk = true) :=
  c7_load_failure_conditions _ (⟨1, 1, 1, 1, 1, 1, 1, 1, 1, 1⟩, [(true, 2)], ⟨1, 1, 2⟩)
    (by decide)

/-! ### Division-by-zero policy (C9) -/

/-- A hand-written degenerate file: all thirteen fields present with value 0
(in particular `nSteps=0` and `timeTotal=0`) and an empty step body. -/
def degenerateFile : List PyStr :=
  [write_var (strOf "nSteps") 0, write_var (strOf "fracOn") 0,
   write_var (strOf "avgDurOn") 0, write_var (strOf "stdDurOn") 0,
   write_var (strOf "minDurOn") 0, write_var (strOf "maxDurOn") 0,
   write_var (strOf "avgDurOff") 0, write_var (strOf "stdDurOff") 0,
   write_var (strOf "minDurOff") 0, write_var (strOf "maxDurOff") 0,
   write_var (strOf "fracStepsOn") 0, write_var (strOf "fracTimeOn") 0,
   write_var (strOf "timeTotal") 0,
   strOf "STEPLIST" ++ crlf]

/-- C9 counterexample: on the reload path the summary statistics are read
from the file and never recomputed, so a file with `nSteps = 0` and
`timeTotal = 0` loads without any error — no `ZeroDivisionError` is raised,
contradicting the claim that the policy applies on the reload path too. -/
theorem c9_reload_counterexample :
    load_file degenerateFile = .ok (⟨0, 0, 0, 0, 0, 0, 0, 0, 0, 0⟩, [], ⟨0, 0, 0⟩) := by
  decide

/-- C9 (amended): on the generation path, `nSteps = 0` or a zero total
duration makes the statistics computation raise `ZeroDivisionError` (never a
silent NaN); on the reload path the statistics are not recomputed, and the
degenerate file loads successfully. -/
theorem c9_divzero_policy :
    (∀ (p : DistParams) (gaussOn gaussOff : ℕ → ℚ) (shuffle : List Step → List Step),
        (∀ l, (shuffle l).Perm l) → p.nSteps = 0 →
        set_seq p gaussOn gaussOff shuffle = .error PyError.zeroDivisionError) ∧
    (∀ steps : List Step, timeTotalOf steps = 0 →
        distribution_details steps = .error PyError.zeroDivisionError) ∧
    (load_file degenerateFile).isOk = true := by
  refine ⟨?_, ?_, by decide⟩
  · intro p gaussOn gaussOff shuffle hsh hzero
    have hq : p.fracOn * p.nSteps = 0 := by rw [hzero, mul_zero]
    have hr : pyRound (p.fracOn * p.nSteps) = 0 := by
      rw [hq, pyRound, if_pos le_rfl, zero_add]
      exact Int.floor_eq_zero_iff.mpr ⟨by norm_num, by norm_num⟩
    have hgen : gen_steps p gaussOn gaussOff shuffle =
        shuffle
          ((bounded_gaussian_list (pyRound (p.fracOn * p.nSteps)).toNat gaussOn
              p.avgDurOn p.stdDurOn p.minDurOn p.maxDurOn).map (fun v => (true, v)) ++
           (bounded_gaussian_list
              (intTrunc (p.nSteps - ((pyRound (p.fracOn * p.nSteps) : ℤ) : ℚ))).toNat gaussOff
              p.avgDurOff p.stdDurOff p.minDurOff p.maxDurOff).map (fun v => (false, v))) := rfl
    have hoff : intTrunc (p.nSteps - (((0 : ℤ) : ℤ) : ℚ)) = 0 := by
      have harg : p.nSteps - (((0 : ℤ) : ℤ) : ℚ) = 0 := by rw [hzero]; norm_num
      rw [harg, intTrunc, if_pos le_rfl, Int.floor_zero]
    have hnil : gen_steps p gaussOn gaussOff shuffle = shuffle [] := by
      rw [hgen, hr, hoff]
      rfl
    have hemp : gen_steps p gaussOn gaussOff shuffle = [] := by
      rw [hnil]
      exact List.Perm.eq_nil (hsh [])
    simp only [set_seq, hemp]
    rfl
  · intro steps ht
    rw [distribution_details]
    by_cases hl : steps.length = 0
    · rw [if_pos hl]
    · rw [if_neg hl, if_pos ht]

/-- C9 witness: concrete instantiations of the two generation-path
conclusions. -/
theorem c9_divzero_policy_witness :
    set_seq ⟨0, 0, 0, 0, 0, 0, 0, 0, 0, 0⟩ (fun _ => 0) (fun _ => 0) id =
      .error PyError.zeroDivisionError ∧
    distribution_details [(true, 0)] = .error PyError.zeroDivisionError :=
  ⟨c9_divzero_policy.1 ⟨0, 0, 0, 0, 0, 0, 0, 0, 0, 0⟩ (fun _ => 0) (fun _ => 0) id
      (fun l => List.Perm.refl l) rfl,
   c9_divzero_policy.2.1 [(true, 0)] (by norm_num [timeTotalOf])⟩

/-! ### Playback-scheduler claims (C1, C6, C8) -/

/-- C1 (evaluation at the failing input): running the three-step sequence
`[(on,0.1),(off,0.2),(on,0.1)]` to completion records the effect calls
`[true, false, true]` and then raises `IndexError` on the final timer fire
(the off-by-one `iStep < len(sequence)` lets `iStep` reach 3 and
`sequence[3][1]` is evaluated), so the terminal safety call `effect(true)`
never happens on the natural-exhaustion path and the recorded trace is not
the claimed `[true, false, true, true]`. -/
theorem c1_natural_exhaustion_eval :
    effectsOf
        ((run (initToggler [(true, mkRat 1 10), (false, mkRat 1 5), (true, mkRat 1 10)])).1 ++
          (runTimers 10
            (run (initToggler [(true, mkRat 1 10), (false, mkRat 1 5), (true, mkRat 1 10)])).2).1) =
      [true, false, true] ∧
    (runTimers 10
        (run (initToggler [(true, mkRat 1 10), (false, mkRat 1 5), (true, mkRat 1 10)])).2).2 =
      .error PyError.indexError ∧
    ([true, false, true] : List Bool) ≠ [true, false, true, true] := by
  refine ⟨by decide, by decide, by decide⟩

/-- C6 (evaluation at the failing input): `run` arms the initial timer with
the small nonzero delay 0.01 and the first fire invokes the effect with
`sequence[0].isOn`, but the wake-up armed on entering index 0 uses
`sequence[1].duration` (0.2), not `sequence[0].duration` (0.1) as the claim
states — the code increments `iStep` before reading the timer delay. -/
theorem c6_schedule_delay_eval :
    (run (initToggler [(true, mkRat 1 10), (false, mkRat 1 5)])).1 =
      [TogEvent.sched (mkRat 1 100)] ∧
    (doStep (run (initToggler [(true, mkRat 1 10), (false, mkRat 1 5)])).2).1 =
      [TogEvent.eff true, TogEvent.sched (mkRat 1 5)] ∧
    mkRat 1 5 ≠ mkRat 1 10 := by
  refine ⟨by decide, by decide, by decide⟩

/-- C8 counterexample: calling `stop()` while Idle before any start crashes
with an `AttributeError` (`self.t` is undefined), contradicting the claim
that it neither crashes nor raises. -/
theorem c8_stop_idle_counterexample :
    stop (initToggler [(true, 1)]) = ([], .error PyError.attributeError) := by
  decide

/-- C8 (amended): calling `stop()` while Idle is not a safe no-op — before
any `run` it raises `AttributeError` (`self.t` undefined), and once a timer
object exists (e.g. after a previous stop) it does not raise but it does
invoke the effect callback with `true` again. -/
theorem c8_stop_idle_behavior :
    (∀ seq : List Step, stop (initToggler seq) = ([], .error PyError.attributeError)) ∧
    (∀ st : TogState, st.tDefined = true →
      stop st = ([TogEvent.eff true],
        .ok { st with tArmed := false, currentlyToggling := false })) := by
  constructor
  · intro seq; rfl
  · intro st h
    rw [stop, if_pos h]

/-- C8 witness: the amended statement at a concrete Idle state with a
defined timer, and at a freshly constructed toggler. -/
theorem c8_stop_idle_behavior_witness :
    stop ⟨[(true, 1)], 1, false, true, false⟩ =
      ([TogEvent.eff true], .ok ⟨[(true, 1)], 1, false, true, false⟩) ∧
    stop (initToggler []) = ([], .error PyError.attributeError) := by
  constructor
  · exact c8_stop_idle_behavior.2 ⟨[(true, 1)], 1, false, true, false⟩ rfl
  · exact c8_stop_idle_behavior.1 []

end MicT
